import Mathlib

/-!
A Lean model of the weather CLI's extraction-and-resampling pipeline.

The model follows the source closely:

* `raw.rs`, `get_forecast`: per-day extraction from the markup document.
  A day is modelled by `RawDay`, holding the attribute/inner-text payloads
  of the selected nodes (the selector engine itself is external library
  code).  Machine floats (`f32`) are modelled as exact rationals `ℚ`;
  strings are modelled as `List Char`.  A Rust panic (the out-of-bounds
  index `forecasts[i]`) is modelled by the error `ExtractErr.indexPanic`,
  an ordinary `Err` return by the other `ExtractErr` constructors.
* `main.rs`, `TimeRange::from_str`: the numeric validation performed after
  the format regex has bound the three fields.
* `main.rs`, `Mixer`: sorting, the standard library binary search, and the
  interpolation in `Mixer::lerp`.  `NaiveTime` values are whole minutes of
  the day, so time subtraction and `num_minutes` become `Nat` subtraction
  cast into `ℚ`.
-/

/-- Numeric value of a digit string (most significant digit first). -/
def digitsVal (cs : List Char) : Nat :=
  cs.foldl (fun a c => 10 * a + (c.toNat - 48)) 0

/-- Digit string as a rational. -/
def digitsQ (cs : List Char) : ℚ :=
  (digitsVal cs : Nat)

/-- Unsigned decimal fragment of Rust's `f32::from_str` grammar:
`Digits '.'? Digits?` or `'.' Digits`.  Exponents and the special values
`inf`/`NaN` are omitted (the markup never produces them); values are exact
rationals. -/
def parseF32Unsigned (cs : List Char) : Option ℚ :=
  let intPart := cs.takeWhile Char.isDigit
  match cs.dropWhile Char.isDigit with
  | [] => if intPart.isEmpty then none else some (digitsQ intPart)
  | '.' :: fracPart =>
      if fracPart.all Char.isDigit && !(intPart.isEmpty && fracPart.isEmpty) then
        some (digitsQ intPart + digitsQ fracPart / (10 : ℚ) ^ fracPart.length)
      else none
  | _ => none

/-- Rust `str::parse::<f32>` on the decimal fragment of its grammar. -/
def parseF32 (cs : List Char) : Option ℚ :=
  match cs with
  | '+' :: rest => parseF32Unsigned rest
  | '-' :: rest => (parseF32Unsigned rest).map (fun q => -q)
  | _ => parseF32Unsigned cs

/-- Rust `str::trim`: drop whitespace from both ends. -/
def trimChars (cs : List Char) : List Char :=
  ((cs.dropWhile Char.isWhitespace).reverse.dropWhile Char.isWhitespace).reverse

/-- Rust `str::strip_suffix('%')`: `some` of the text without the final `'%'`
when it ends with one, otherwise `none`. -/
def stripPercentSuffix (cs : List Char) : Option (List Char) :=
  match cs.reverse with
  | c :: rest => if c = '%' then some rest.reverse else none
  | [] => none

/-- The text a percent cell is parsed from:
`inner.trim().strip_suffix('%').unwrap_or("0.0")`
(`raw.rs` lines 231 and 271). -/
def percentText (inner : List Char) : List Char :=
  match stripPercentSuffix (trimChars inner) with
  | some text => text
  | none => ['0', '.', '0']

/-- The HTML entity `&lt;5`, the "below measurable threshold" marker. -/
def ltFiveMarker : List Char := ['&', 'l', 't', ';', '5']

/-- Value of a precipitation cell (`raw.rs` lines 229-237): strip a trailing
`%`, map `&lt;5` to `0.0`, otherwise parse as a number (`none` = parse
failure). -/
def precipOfCell (inner : List Char) : Option ℚ :=
  let text := percentText inner
  if text = ltFiveMarker then some 0 else parseF32 text

/-- Value of a humidity cell (`raw.rs` lines 269-273): strip a trailing `%`
and parse as a number; there is no `&lt;5` special case here. -/
def humidOfCell (inner : List Char) : Option ℚ :=
  parseF32 (percentText inner)

/-- A calendar date `(year, month, day)`. -/
abbrev Date := Nat × Nat × Nat

/-- Models `chrono::NaiveDate::parse_from_str(id, "%Y-%m-%d")` for the
claim-relevant cases: three dash-separated digit groups with a plausible
month and day (chrono's exact calendar validation is not needed by any
claim). -/
def parseDate (cs : List Char) : Option Date :=
  match cs.splitOn '-' with
  | [y, m, d] =>
      if !y.isEmpty && y.all Char.isDigit && !m.isEmpty && m.all Char.isDigit &&
          !d.isEmpty && d.all Char.isDigit &&
          decide (1 ≤ digitsVal m) && decide (digitsVal m ≤ 12) &&
          decide (1 ≤ digitsVal d) && decide (digitsVal d ≤ 31) then
        some (digitsVal y, digitsVal m, digitsVal d)
      else none
  | _ => none

/-- Models `chrono::NaiveTime::parse_from_str(data_time, "%H:%M")`; the
resulting time of day is its minute count, matching the `num_minutes`
arithmetic in `Mixer::lerp`. -/
def parseTimeHM (cs : List Char) : Option Nat :=
  match cs.splitOn ':' with
  | [h, m] =>
      if !h.isEmpty && h.all Char.isDigit && !m.isEmpty && m.all Char.isDigit &&
          decide (digitsVal h < 24) && decide (digitsVal m < 60) then
        some (digitsVal h * 60 + digitsVal m)
      else none
  | _ => none

/-- `raw.rs` `Forecast` (`#[derive(Default)]`): field defaults are the Rust
`Default` values, zero for numbers and empty for strings. -/
structure Forecast where
  status : List Char := []
  precipitation : ℚ := 0
  temperature : ℚ := 0
  feels_like : ℚ := 0
  wind_speed : ℚ := 0
  wind_direction : List Char := []
  wind_gust : ℚ := 0
  visibility : ℚ := 0
  humidity : ℚ := 0
  uv_index : ℚ := 0
deriving DecidableEq

instance : Inhabited Forecast := ⟨{}⟩

/-- Celsius to Fahrenheit when `freedom_units` is set (`raw.rs` lines
182-186). -/
def convert_temp (freedom : Bool) (t : ℚ) : ℚ :=
  if freedom then t * 1.8 + 32 else t

/-- m/s to mph or km/h (`raw.rs` lines 188-192). -/
def convert_speed (freedom : Bool) (s : ℚ) : ℚ :=
  if freedom then s * 2.237 else s * 3.6

/-- The ways `get_forecast` aborts, including the Rust panic raised by an
out-of-bounds `forecasts[i]` write. -/
inductive ExtractErr where
  | missingAttr : ExtractErr
  | malformedDate : ExtractErr
  | malformedTime : ExtractErr
  | parseFailure : ExtractErr
  | indexPanic : ExtractErr
deriving DecidableEq

/-- One `.forecast-day` container, reduced to the payloads the extraction
loops read: the `id` attribute, the `data-time` attribute of each time
header, and per data field either the required attribute (`none` when the
attribute is absent) or the cell's inner text. -/
structure RawDay where
  id : Option (List Char) := none
  timeNodes : List (Option (List Char)) := []
  statusNodes : List (Option (List Char)) := []
  precipNodes : List (List Char) := []
  tempNodes : List (Option (List Char)) := []
  feelsNodes : List (Option (List Char)) := []
  windSpeedNodes : List (Option (List Char)) := []
  windDirNodes : List (Option (List Char)) := []
  windGustNodes : List (Option (List Char)) := []
  visibNodes : List (Option (List Char)) := []
  humidNodes : List (List Char) := []
  uvNodes : List (Option (List Char)) := []
deriving DecidableEq

/-- `attr(..).context(..)?`: a required attribute, `Err` when absent. -/
def require (o : Option (List Char)) : Except ExtractErr (List Char) :=
  match o with
  | some s => Except.ok s
  | none => Except.error ExtractErr.missingAttr

/-- A required `data-value` attribute parsed as a number. -/
def numVal (o : Option (List Char)) : Except ExtractErr ℚ := do
  let s ← require o
  match parseF32 s with
  | some q => Except.ok q
  | none => Except.error ExtractErr.parseFailure

/-- The write `forecasts[i] = ..`: `Vec` indexing panics when `i` is out of
bounds, modelled by `ExtractErr.indexPanic`. -/
def setIdx : List Forecast → Nat → (Forecast → Forecast) → Except ExtractErr (List Forecast)
  | [], _, _ => Except.error ExtractErr.indexPanic
  | f :: fs, 0, upd => Except.ok (upd f :: fs)
  | f :: fs, i + 1, upd => (setIdx fs i upd).map (fun out => f :: out)

/-- One field-population loop
`for (i, node) in day.select(&sel).enumerate() { let v = ..?; forecasts[i].field = v }`:
each node yields a value (or an extraction error), written positionally at
index `i`. -/
def runPass {α β : Type} (getVal : α → Except ExtractErr β)
    (setF : Forecast → β → Forecast) :
    List Forecast → List α → Nat → Except ExtractErr (List Forecast)
  | fs, [], _ => Except.ok fs
  | fs, n :: ns, i => do
      let v ← getVal n
      let fs2 ← setIdx fs i (fun f => setF f v)
      runPass getVal setF fs2 ns (i + 1)

/-- Value of a `.step-uv`/`.step-visibility`-style cell is `numVal`; the two
percent cells parse their inner text instead. -/
def precipVal (c : List Char) : Except ExtractErr ℚ :=
  match precipOfCell c with
  | some q => Except.ok q
  | none => Except.error ExtractErr.parseFailure

/-- Humidity cell value, `Err` on parse failure. -/
def humidVal (c : List Char) : Except ExtractErr ℚ :=
  match humidOfCell c with
  | some q => Except.ok q
  | none => Except.error ExtractErr.parseFailure

/-- The ten field-population loops of `get_forecast` (`raw.rs` lines
224-278), in source order. -/
def dayPasses (freedom : Bool) (d : RawDay) (fs0 : List Forecast) :
    Except ExtractErr (List Forecast) := do
  let fs1 ← runPass require (fun f v => { f with status := v }) fs0 d.statusNodes 0
  let fs2 ← runPass precipVal (fun f v => { f with precipitation := v }) fs1 d.precipNodes 0
  let fs3 ← runPass (fun o => (numVal o).map (convert_temp freedom))
      (fun f v => { f with temperature := v }) fs2 d.tempNodes 0
  let fs4 ← runPass (fun o => (numVal o).map (convert_temp freedom))
      (fun f v => { f with feels_like := v }) fs3 d.feelsNodes 0
  let fs5 ← runPass (fun o => (numVal o).map (convert_speed freedom))
      (fun f v => { f with wind_speed := v }) fs4 d.windSpeedNodes 0
  let fs6 ← runPass require (fun f v => { f with wind_direction := v }) fs5 d.windDirNodes 0
  let fs7 ← runPass (fun o => (numVal o).map (convert_speed freedom))
      (fun f v => { f with wind_gust := v }) fs6 d.windGustNodes 0
  let fs8 ← runPass numVal (fun f v => { f with visibility := v }) fs7 d.visibNodes 0
  let fs9 ← runPass humidVal (fun f v => { f with humidity := v }) fs8 d.humidNodes 0
  runPass numVal (fun f v => { f with uv_index := v }) fs9 d.uvNodes 0

/-- The day's date from its `id` attribute (`raw.rs` lines 213-214). -/
def dayDate (d : RawDay) : Except ExtractErr Date := do
  let s ← require d.id
  match parseDate s with
  | some dt => Except.ok dt
  | none => Except.error ExtractErr.malformedDate

/-- One time header's `data-time` attribute parsed as `%H:%M`. -/
def timeVal (o : Option (List Char)) : Except ExtractErr Nat := do
  let s ← require o
  match parseTimeHM s with
  | some t => Except.ok t
  | none => Except.error ExtractErr.malformedTime

/-- The day's time axis (`raw.rs` lines 216-220). -/
def dayTimes (d : RawDay) : Except ExtractErr (List Nat) :=
  d.timeNodes.mapM timeVal

/-- Extraction of one `.forecast-day` (`raw.rs` lines 212-280): date, time
axis, `times.len()` default records, the ten population passes, and the
final zip of time axis against records. -/
def extractDay (freedom : Bool) (d : RawDay) :
    Except ExtractErr (Date × List (Nat × Forecast)) := do
  let date ← dayDate d
  let times ← dayTimes d
  let fs ← dayPasses freedom d (List.replicate times.length default)
  Except.ok (date, times.zip fs)

/-- `raw.rs` `get_forecast`, restricted to its pure extraction part: the
per-day loop with `?` on every failure, so an error on any day discards all
accumulated days. -/
def get_forecast (freedom : Bool) (days : List RawDay) :
    Except ExtractErr (List (Date × List (Nat × Forecast))) :=
  days.mapM (extractDay freedom)

/-- `main.rs` `TimeRange`. -/
structure TimeRange where
  start : Nat
  step : Nat
  count : Nat
deriving DecidableEq

/-- The numeric validation of `TimeRange::from_str` (`main.rs` lines
96-100), after the format regex has bound `start ≤ 23`, `step ≤ 24`,
`count ≤ 24`: reject when `count*(step - 1) + start >= 24`.  The fields are
`usize`, so `step = 0` makes `step - 1` underflow: a panic in debug builds
and a wrap to a huge value (hence rejection) in release builds — in either
build the descriptor is not accepted, modelled here as `none`. -/
def timeRangeOfFields (start step count : Nat) : Option TimeRange :=
  if step = 0 then none
  else if 24 ≤ count * (step - 1) + start then none
  else some ⟨start, step, count⟩

/-- The query times `cli_main` enumerates from a `TimeRange` (`main.rs`
lines 206-209): `start, start + step, ..` for `count` iterations, in whole
hours. -/
def queryTimes (tr : TimeRange) : List Nat :=
  (List.range tr.count).map (fun i => tr.start + tr.step * i)

/-- The loop of Rust `slice::binary_search_by_key` (by the time key) on the
half-open range `[lo, hi)`, with explicit fuel standing in for the loop's
termination (the range halves each iteration, so `hi - lo` steps always
suffice): `.ok i` when `ks[i] = t`, `.error i` with the insertion point
otherwise. -/
def binarySearchGo (ks : List Nat) (t : Nat) : Nat → Nat → Nat → Except Nat Nat
  | lo, _, 0 => .error lo
  | lo, hi, fuel + 1 =>
    if lo < hi then
      let mid := lo + (hi - lo) / 2
      let k := ks.getD mid 0
      if k < t then binarySearchGo ks t (mid + 1) hi fuel
      else if t < k then binarySearchGo ks t lo mid fuel
      else .ok mid
    else .error lo

/-- Rust `slice::binary_search_by_key` on `[lo, hi)`. -/
def binarySearchAux (ks : List Nat) (t : Nat) (lo hi : Nat) : Except Nat Nat :=
  binarySearchGo ks t lo hi (hi - lo)

/-- `main.rs` `Mixer`: one day's `(time, forecast)` pairs. -/
structure Mixer where
  data : List (Nat × Forecast)

/-- `Mixer::new` sorts the pairs by time (a stable sort). -/
def Mixer.new (data : List (Nat × Forecast)) : Mixer :=
  ⟨data.mergeSort (fun a b => decide (a.1 ≤ b.1))⟩

/-- The interpolation fraction `t` of `Mixer::lerp` (`main.rs` line 121):
minute difference ratio. -/
def lerpFrac (atime btime time : Nat) : ℚ :=
  ((time : ℚ) - (atime : ℚ)) / ((btime : ℚ) - (atime : ℚ))

/-- The record built in the interpolation branch of `Mixer::lerp`
(`main.rs` lines 123-134), from bracketing entries `a` and `b`. -/
def mixRecord (a b : Nat × Forecast) (time : Nat) : Forecast :=
  let t := lerpFrac a.1 b.1 time
  let afore := a.2
  let bfore := b.2
  { status := if bfore.precipitation > afore.precipitation then bfore.status else afore.status
    precipitation := (1 - t) * afore.precipitation + t * bfore.precipitation
    temperature := (1 - t) * afore.temperature + t * bfore.precipitation
    feels_like := (1 - t) * afore.feels_like + t * bfore.feels_like
    wind_speed := (1 - t) * afore.wind_speed + t * bfore.wind_speed
    wind_direction := afore.wind_direction
    wind_gust := (1 - t) * afore.wind_gust + t * bfore.wind_gust
    visibility := (1 - t) * afore.visibility + t * bfore.visibility
    humidity := (1 - t) * afore.humidity + t * bfore.humidity
    uv_index := max afore.uv_index bfore.uv_index }

/-- `Mixer::lerp` (`main.rs` lines 114-138): binary search by time key;
boundary misses return `None`, an exact hit returns the stored record, an
interior miss interpolates between the two neighbouring entries. -/
def Mixer.lerp (m : Mixer) (time : Nat) : Option Forecast :=
  match binarySearchAux (m.data.map Prod.fst) time 0 m.data.length with
  | .error idx =>
      if idx = 0 ∨ idx = m.data.length then none
      else some (mixRecord (m.data.getD (idx - 1) (0, default))
          (m.data.getD idx (0, default)) time)
  | .ok idx => some (m.data.getD idx (0, default)).2

/-- Sortedness by the time key, the `Mixer` invariant `Mixer::new`
establishes. -/
def sortedByTime (l : List (Nat × Forecast)) : Prop :=
  l.Pairwise (fun a b => a.1 ≤ b.1)

deriving instance DecidableEq for Except

instance (l : List (Nat × Forecast)) : Decidable (sortedByTime l) := by
  unfold sortedByTime; infer_instance

/-- The failure modes of one day that abort the extraction of the whole
document: a present but malformed date `id`, a time header without its
`data-time` attribute, or a numeric cell whose text does not parse. -/
def dayFailure (d : RawDay) : Prop :=
  (∃ s, d.id = some s ∧ parseDate s = none)
  ∨ (none ∈ d.timeNodes)
  ∨ (∃ c ∈ d.precipNodes, precipOfCell c = none)
  ∨ (∃ o ∈ d.tempNodes, ∃ s, o = some s ∧ parseF32 s = none)
  ∨ (∃ o ∈ d.feelsNodes, ∃ s, o = some s ∧ parseF32 s = none)
  ∨ (∃ o ∈ d.windSpeedNodes, ∃ s, o = some s ∧ parseF32 s = none)
  ∨ (∃ o ∈ d.windGustNodes, ∃ s, o = some s ∧ parseF32 s = none)
  ∨ (∃ o ∈ d.visibNodes, ∃ s, o = some s ∧ parseF32 s = none)
  ∨ (∃ c ∈ d.humidNodes, humidOfCell c = none)
  ∨ (∃ o ∈ d.uvNodes, ∃ s, o = some s ∧ parseF32 s = none)

/-- Concrete day used to exhibit the out-of-bounds write: one time-axis
entry but two precipitation cells. -/
def longPrecipDay : RawDay :=
  { id := some "2022-01-02".data,
    timeNodes := [some "06:00".data],
    precipNodes := ["10%".data, "20%".data] }

/-- Concrete day with a present but unparsable date `id`. -/
def badDateDay : RawDay :=
  { id := some "bogus".data }

/-- Concrete morning record used by the `Mixer` witnesses. -/
def recA : Forecast :=
  { temperature := 10, precipitation := 40, uv_index := 3, feels_like := 8 }

/-- Concrete noon record used by the `Mixer` witnesses. -/
def recB : Forecast :=
  { temperature := 20, precipitation := 10, uv_index := 5, feels_like := 16 }

/-- `bind` of a success reduces to the continuation. -/
@[simp] theorem okBind {ε α β : Type} (a : α) (f : α → Except ε β) :
    (Except.ok a >>= f) = f a := rfl

/-- `bind` of a failure is that failure. -/
@[simp] theorem errorBind {ε α β : Type} (e : ε) (f : α → Except ε β) :
    ((Except.error e : Except ε α) >>= f) = Except.error e := rfl

/-- `bind` on `Except` succeeds only when both stages succeed. -/
theorem exceptBindOk {ε α β : Type} {x : Except ε α} {f : α → Except ε β} {b : β}
    (h : x >>= f = Except.ok b) : ∃ a, x = Except.ok a ∧ f a = Except.ok b := by
  cases x with
  | ok a => exact ⟨a, rfl, h⟩
  | error e =>
      simp only [Bind.bind, Except.bind] at h
      exact Except.noConfusion h

/-- `Except.map` succeeds only on a success. -/
theorem exceptMapOk {ε α β : Type} {x : Except ε α} {g : α → β} {b : β}
    (h : x.map g = Except.ok b) : ∃ a, x = Except.ok a ∧ g a = b := by
  cases x with
  | ok a =>
      refine ⟨a, rfl, ?_⟩
      simpa [Except.map] using h
  | error e => simp [Except.map] at h

/-- A required attribute read succeeds exactly on a present attribute. -/
theorem require_ok {o : Option (List Char)} {s : List Char}
    (h : require o = Except.ok s) : o = some s := by
  cases o with
  | some s2 =>
      simp only [require, Except.ok.injEq] at h
      rw [h]
  | none => simp [require] at h

/-- A successful `numVal` exhibits a present attribute that parses. -/
theorem numVal_ok {o : Option (List Char)} {q : ℚ} (h : numVal o = Except.ok q) :
    ∃ s, o = some s ∧ parseF32 s = some q := by
  unfold numVal at h
  obtain ⟨s, hs, h2⟩ := exceptBindOk h
  refine ⟨s, require_ok hs, ?_⟩
  cases hp : parseF32 s with
  | some q2 =>
      rw [hp] at h2
      simp only [Except.ok.injEq] at h2
      rw [h2]
  | none =>
      rw [hp] at h2
      exact Except.noConfusion h2

/-- A successful `Except`-valued `mapM` means every element succeeded. -/
theorem mapM_ok_forall {ε α β : Type} (f : α → Except ε β) :
    ∀ (l : List α) (out : List β), l.mapM f = Except.ok out →
      ∀ a ∈ l, ∃ b, f a = Except.ok b := by
  intro l
  induction l with
  | nil =>
      intro out h a ha
      exact absurd ha (List.not_mem_nil a)
  | cons x xs ih =>
      intro out h a ha
      rw [List.mapM_cons] at h
      obtain ⟨b, hb, h2⟩ := exceptBindOk h
      obtain ⟨bs, hbs, h3⟩ := exceptBindOk h2
      rcases List.mem_cons.mp ha with rfl | hmem
      · exact ⟨b, hb⟩
      · exact ih bs hbs a hmem

/-- An `Except`-valued `mapM` with a failing element fails. -/
theorem mapM_error_exists {ε α β : Type} (f : α → Except ε β) (l : List α)
    (hbad : ∃ a ∈ l, ∃ e, f a = Except.error e) :
    ∃ e, l.mapM f = Except.error e := by
  cases h : l.mapM f with
  | error e => exact ⟨e, rfl⟩
  | ok out =>
      obtain ⟨a, ha, e, he⟩ := hbad
      obtain ⟨b, hb⟩ := mapM_ok_forall f l out h a ha
      rw [he] at hb
      exact Except.noConfusion hb

/-- `setIdx` preserves the record count. -/
theorem setIdx_ok_length :
    ∀ {fs : List Forecast} {i : Nat} {upd : Forecast → Forecast} {out : List Forecast},
    setIdx fs i upd = Except.ok out → out.length = fs.length := by
  intro fs
  induction fs with
  | nil =>
      intro i upd out h
      simp [setIdx] at h
  | cons f fs ih =>
      intro i upd out h
      cases i with
      | zero =>
          simp only [setIdx, Except.ok.injEq] at h
          rw [← h]
          simp
      | succ j =>
          simp only [setIdx] at h
          obtain ⟨out2, ho, hg⟩ := exceptMapOk h
          rw [← hg]
          simp [ih ho]

/-- An in-bounds `setIdx` succeeds. -/
theorem setIdx_ok_of_lt :
    ∀ {fs : List Forecast} {i : Nat} (upd : Forecast → Forecast), i < fs.length →
      ∃ out, setIdx fs i upd = Except.ok out := by
  intro fs
  induction fs with
  | nil =>
      intro i upd h
      simp at h
  | cons f fs ih =>
      intro i upd h
      cases i with
      | zero => exact ⟨upd f :: fs, rfl⟩
      | succ j =>
          obtain ⟨out, hout⟩ := ih upd (by simpa using h)
          exact ⟨f :: out, by simp [setIdx, hout, Except.map]⟩

/-- An out-of-bounds `setIdx` is the Rust index panic. -/
theorem setIdx_panic_of_ge :
    ∀ {fs : List Forecast} {i : Nat} (upd : Forecast → Forecast), fs.length ≤ i →
      setIdx fs i upd = Except.error ExtractErr.indexPanic := by
  intro fs
  induction fs with
  | nil =>
      intro i upd h
      rfl
  | cons f fs ih =>
      intro i upd h
      cases i with
      | zero => simp at h
      | succ j =>
          simp only [setIdx]
          rw [ih upd (by simpa using h)]
          rfl

/-- `setIdx` leaves every other position untouched. -/
theorem setIdx_getD_ne :
    ∀ {fs : List Forecast} {i : Nat} {upd : Forecast → Forecast} {out : List Forecast},
    setIdx fs i upd = Except.ok out →
      ∀ j, j ≠ i → ∀ d, out.getD j d = fs.getD j d := by
  intro fs
  induction fs with
  | nil =>
      intro i upd out h
      simp [setIdx] at h
  | cons f fs ih =>
      intro i upd out h j hj d
      cases i with
      | zero =>
          simp only [setIdx, Except.ok.injEq] at h
          rw [← h]
          cases j with
          | zero => exact absurd rfl hj
          | succ j2 => simp [List.getD]
      | succ i2 =>
          simp only [setIdx] at h
          obtain ⟨out2, ho, hg⟩ := exceptMapOk h
          rw [← hg]
          cases j with
          | zero => simp [List.getD]
          | succ j2 =>
              simp only [List.getD_cons_succ]
              exact ih ho j2 (by omega) d

/-- A successful population pass means every node's value was obtained. -/
theorem runPass_ok_getVal {α β : Type} (getVal : α → Except ExtractErr β)
    (setF : Forecast → β → Forecast) :
    ∀ (ns : List α) (fs : List Forecast) (i : Nat) (out : List Forecast),
    runPass getVal setF fs ns i = Except.ok out →
      ∀ n ∈ ns, ∃ v, getVal n = Except.ok v := by
  intro ns
  induction ns with
  | nil =>
      intro fs i out h n hn
      exact absurd hn (List.not_mem_nil n)
  | cons n2 ns ih =>
      intro fs i out h n hn
      simp only [runPass] at h
      obtain ⟨v, hv, h2⟩ := exceptBindOk h
      obtain ⟨fs2, hfs2, h3⟩ := exceptBindOk h2
      rcases List.mem_cons.mp hn with rfl | hmem
      · exact ⟨v, hv⟩
      · exact ih fs2 (i + 1) out h3 n hmem

/-- A population pass with a failing node fails. -/
theorem runPass_error_exists {α β : Type} (getVal : α → Except ExtractErr β)
    (setF : Forecast → β → Forecast) (ns : List α) (fs : List Forecast) (i : Nat)
    (hbad : ∃ n ∈ ns, ∃ e, getVal n = Except.error e) :
    ∃ e, runPass getVal setF fs ns i = Except.error e := by
  cases h : runPass getVal setF fs ns i with
  | error e => exact ⟨e, rfl⟩
  | ok out =>
      obtain ⟨n, hn, e, he⟩ := hbad
      obtain ⟨v, hv⟩ := runPass_ok_getVal getVal setF ns fs i out h n hn
      rw [he] at hv
      exact Except.noConfusion hv

/-- A successful population pass preserves the record count. -/
theorem runPass_ok_length {α β : Type} (getVal : α → Except ExtractErr β)
    (setF : Forecast → β → Forecast) :
    ∀ (ns : List α) (fs : List Forecast) (i : Nat) (out : List Forecast),
    runPass getVal setF fs ns i = Except.ok out → out.length = fs.length := by
  intro ns
  induction ns with
  | nil =>
      intro fs i out h
      simp only [runPass, Except.ok.injEq] at h
      rw [h]
  | cons n ns ih =>
      intro fs i out h
      simp only [runPass] at h
      obtain ⟨v, hv, h2⟩ := exceptBindOk h
      obtain ⟨fs2, hfs2, h3⟩ := exceptBindOk h2
      rw [ih fs2 (i + 1) out h3, setIdx_ok_length hfs2]

/-- A successful population pass starting at index `i` touches only the
positions `i, i+1, ..., i + ns.length - 1`. -/
theorem runPass_ok_getD_outside {α β : Type} (getVal : α → Except ExtractErr β)
    (setF : Forecast → β → Forecast) :
    ∀ (ns : List α) (fs : List Forecast) (i : Nat) (out : List Forecast),
    runPass getVal setF fs ns i = Except.ok out →
      ∀ j, (j < i ∨ i + ns.length ≤ j) → ∀ d, out.getD j d = fs.getD j d := by
  intro ns
  induction ns with
  | nil =>
      intro fs i out h j hj d
      simp only [runPass, Except.ok.injEq] at h
      rw [h]
  | cons n ns ih =>
      intro fs i out h j hj d
      simp only [runPass] at h
      obtain ⟨v, hv, h2⟩ := exceptBindOk h
      obtain ⟨fs2, hfs2, h3⟩ := exceptBindOk h2
      simp only [List.length_cons] at hj
      have hj2 : j < i + 1 ∨ i + 1 + ns.length ≤ j := by omega
      have hiter := ih fs2 (i + 1) out h3 j hj2 d
      rw [hiter, setIdx_getD_ne hfs2 j (by omega) d]

/-- A population pass whose node list outruns the record list panics,
provided every value itself is obtainable. -/
theorem runPass_panic_of_long {α β : Type} (getVal : α → Except ExtractErr β)
    (setF : Forecast → β → Forecast) :
    ∀ (ns : List α) (fs : List Forecast) (i : Nat),
    (∀ n ∈ ns, ∃ v, getVal n = Except.ok v) →
    i ≤ fs.length → fs.length < i + ns.length →
      runPass getVal setF fs ns i = Except.error ExtractErr.indexPanic := by
  intro ns
  induction ns with
  | nil =>
      intro fs i hok hle hlt
      simp only [List.length_nil, Nat.add_zero] at hlt
      exact absurd hle (by omega)
  | cons n ns ih =>
      intro fs i hok hle hlt
      obtain ⟨v, hv⟩ := hok n (List.mem_cons_self n ns)
      rcases Nat.eq_or_lt_of_le hle with heq | hlt2
      · have hset : setIdx fs i (fun f => setF f v) = Except.error ExtractErr.indexPanic :=
          setIdx_panic_of_ge (fun f => setF f v) heq.ge
        simp only [runPass, hv, okBind, hset, errorBind]
      · obtain ⟨fs2, hfs2⟩ := setIdx_ok_of_lt (fun f => setF f v) hlt2
        have hlen2 : fs2.length = fs.length := setIdx_ok_length hfs2
        simp only [runPass, hv, okBind, hfs2]
        refine ih fs2 (i + 1) ?_ ?_ ?_
        · exact fun n2 hn2 => hok n2 (List.mem_cons_of_mem n hn2)
        · omega
        · simp only [List.length_cons] at hlt
          omega

/-- A population pass whose node list fits within the record list
succeeds, provided every value is obtainable. -/
theorem runPass_ok_of_short {α β : Type} (getVal : α → Except ExtractErr β)
    (setF : Forecast → β → Forecast) :
    ∀ (ns : List α) (fs : List Forecast) (i : Nat),
    (∀ n ∈ ns, ∃ v, getVal n = Except.ok v) →
    i + ns.length ≤ fs.length →
      ∃ out, runPass getVal setF fs ns i = Except.ok out := by
  intro ns
  induction ns with
  | nil =>
      intro fs i hok hle
      exact ⟨fs, rfl⟩
  | cons n ns ih =>
      intro fs i hok hle
      obtain ⟨v, hv⟩ := hok n (List.mem_cons_self n ns)
      simp only [List.length_cons] at hle
      obtain ⟨fs2, hfs2⟩ := setIdx_ok_of_lt (fun f => setF f v) (show i < fs.length by omega)
      have hlen2 : fs2.length = fs.length := setIdx_ok_length hfs2
      simp only [runPass, hv, okBind, hfs2]
      refine ih fs2 (i + 1) ?_ ?_
      · exact fun n2 hn2 => hok n2 (List.mem_cons_of_mem n hn2)
      · omega

/-- A hit of the binary search loop lies in the searched range and
carries the searched key. -/
theorem binarySearchGo_ok (ks : List Nat) (t : Nat) :
    ∀ fuel lo hi, hi ≤ ks.length →
    ∀ i, binarySearchGo ks t lo hi fuel = .ok i → lo ≤ i ∧ i < hi ∧ ks.getD i 0 = t := by
  intro fuel
  induction fuel with
  | zero =>
      intro lo hi hh i h
      exact Except.noConfusion h
  | succ n ih =>
      intro lo hi hh i h
      by_cases hlh : lo < hi
      · simp only [binarySearchGo] at h
        rw [if_pos hlh] at h
        rcases Nat.lt_trichotomy (ks.getD (lo + (hi - lo) / 2) 0) t with hk | hk | hk
        · rw [if_pos hk] at h
          have h2 := ih (lo + (hi - lo) / 2 + 1) hi hh i h
          exact ⟨by omega, h2.2.1, h2.2.2⟩
        · rw [if_neg (by omega), if_neg (by omega), Except.ok.injEq] at h
          subst h
          exact ⟨by omega, by omega, by omega⟩
        · rw [if_neg (by omega), if_pos hk] at h
          have h2 := ih lo (lo + (hi - lo) / 2) (by omega) i h
          exact ⟨h2.1, by omega, h2.2.2⟩
      · simp only [binarySearchGo] at h
        rw [if_neg hlh] at h
        exact Except.noConfusion h

/-- A miss of the binary search loop on a sorted key list returns the
insertion point: all keys before it are smaller, all keys from it on are
larger. -/
theorem binarySearchGo_error (ks : List Nat) (t : Nat)
    (hsort : ∀ a b : Nat, a ≤ b → b < ks.length → ks.getD a 0 ≤ ks.getD b 0) :
    ∀ fuel lo hi, hi - lo ≤ fuel → lo ≤ hi → hi ≤ ks.length →
    (∀ j, j < lo → ks.getD j 0 < t) →
    (∀ j, hi ≤ j → j < ks.length → t < ks.getD j 0) →
    ∀ i, binarySearchGo ks t lo hi fuel = .error i →
      i ≤ ks.length ∧ (∀ j, j < i → ks.getD j 0 < t) ∧
      (∀ j, i ≤ j → j < ks.length → t < ks.getD j 0) := by
  intro fuel
  induction fuel with
  | zero =>
      intro lo hi hf hlh hh hpre hpost i h
      simp only [binarySearchGo, Except.error.injEq] at h
      subst h
      have hlo : lo = hi := by omega
      exact ⟨by omega, hpre, fun j hj hjl => hpost j (by omega) hjl⟩
  | succ n ih =>
      intro lo hi hf hlh hh hpre hpost i h
      by_cases hlh2 : lo < hi
      · simp only [binarySearchGo] at h
        rw [if_pos hlh2] at h
        rcases Nat.lt_trichotomy (ks.getD (lo + (hi - lo) / 2) 0) t with hk | hk | hk
        · rw [if_pos hk] at h
          refine ih (lo + (hi - lo) / 2 + 1) hi (by omega) (by omega) hh ?_ hpost i h
          intro j hj
          rcases Nat.lt_or_ge j lo with hc | hc
          · exact hpre j hc
          · exact Nat.lt_of_le_of_lt (hsort j (lo + (hi - lo) / 2) (by omega) (by omega)) hk
        · rw [if_neg (by omega), if_neg (by omega)] at h
          exact Except.noConfusion h
        · rw [if_neg (by omega), if_pos hk] at h
          refine ih lo (lo + (hi - lo) / 2) (by omega) (by omega) (by omega) hpre ?_ i h
          intro j hj hjl
          exact Nat.lt_of_lt_of_le hk (hsort (lo + (hi - lo) / 2) j hj hjl)
      · simp only [binarySearchGo] at h
        rw [if_neg hlh2, Except.error.injEq] at h
        subst h
        have hlo : lo = hi := by omega
        exact ⟨by omega, hpre, fun j hj hjl => hpost j (by omega) hjl⟩

/-- Correctness of a binary search hit. -/
theorem binarySearchAux_ok (ks : List Nat) (t : Nat) : ∀ lo hi, hi ≤ ks.length →
    ∀ i, binarySearchAux ks t lo hi = .ok i → lo ≤ i ∧ i < hi ∧ ks.getD i 0 = t := by
  intro lo hi hh i h
  exact binarySearchGo_ok ks t (hi - lo) lo hi hh i h

/-- Correctness of a binary search miss on a sorted key list. -/
theorem binarySearchAux_error (ks : List Nat) (t : Nat)
    (hsort : ∀ a b : Nat, a ≤ b → b < ks.length → ks.getD a 0 ≤ ks.getD b 0) :
    ∀ lo hi, lo ≤ hi → hi ≤ ks.length →
    (∀ j, j < lo → ks.getD j 0 < t) →
    (∀ j, hi ≤ j → j < ks.length → t < ks.getD j 0) →
    ∀ i, binarySearchAux ks t lo hi = .error i →
      i ≤ ks.length ∧ (∀ j, j < i → ks.getD j 0 < t) ∧
      (∀ j, i ≤ j → j < ks.length → t < ks.getD j 0) := by
  intro lo hi hlh hh hpre hpost i h
  exact binarySearchGo_error ks t hsort (hi - lo) lo hi (by omega) hlh hh hpre hpost i h

/-- Monotonicity of a sorted key list, `getD` form. -/
theorem keys_getD_mono {ks : List Nat} (hp : ks.Pairwise (· ≤ ·)) :
    ∀ a b : Nat, a ≤ b → b < ks.length → ks.getD a 0 ≤ ks.getD b 0 := by
  intro a b hab hb
  rcases Nat.eq_or_lt_of_le hab with rfl | hlt
  · exact le_refl _
  · have ha : a < ks.length := lt_trans hlt hb
    rw [ks.getD_eq_getElem 0 ha, ks.getD_eq_getElem 0 hb]
    have := List.pairwise_iff_get.mp hp ⟨a, ha⟩ ⟨b, hb⟩ hlt
    simpa using this

/-- The time keys of a sorted day series are pairwise ordered. -/
theorem sorted_keys {l : List (Nat × Forecast)} (hs : sortedByTime l) :
    (l.map Prod.fst).Pairwise (· ≤ ·) :=
  List.pairwise_map.mpr hs

/-- Bridge between the key list and the entry list. -/
theorem keys_getD {l : List (Nat × Forecast)} {j : Nat} (hj : j < l.length) :
    (l.map Prod.fst).getD j 0 = (l.getD j (0, default)).1 := by
  rw [List.getD_eq_getElem _ _ (by simpa using hj), List.getD_eq_getElem _ _ hj,
    List.getElem_map]

/-- `Mixer::new` establishes the sortedness invariant. -/
theorem mixer_new_sorted (data : List (Nat × Forecast)) :
    sortedByTime (Mixer.new data).data := by
  have htrans : ∀ a b c : Nat × Forecast,
      (decide (a.1 ≤ b.1)) = true → (decide (b.1 ≤ c.1)) = true →
        (decide (a.1 ≤ c.1)) = true := by
    intro a b c hab hbc
    simp only [decide_eq_true_eq] at *
    omega
  have htotal : ∀ a b : Nat × Forecast,
      ((decide (a.1 ≤ b.1)) || (decide (b.1 ≤ a.1))) = true := by
    intro a b
    simp only [Bool.or_eq_true, decide_eq_true_eq]
    omega
  have h := @List.sorted_mergeSort (Nat × Forecast)
    (fun a b => decide (a.1 ≤ b.1)) htrans htotal data
  exact h.imp (fun hab => by simpa using hab)

/-- `Mixer::lerp` on a search hit returns the stored record. -/
theorem lerp_eq_of_ok {m : Mixer} {t i : Nat}
    (h : binarySearchAux (m.data.map Prod.fst) t 0 m.data.length = .ok i) :
    m.lerp t = some (m.data.getD i (0, default)).2 := by
  unfold Mixer.lerp
  rw [h]

/-- `Mixer::lerp` on a search miss: boundary check, then interpolation. -/
theorem lerp_eq_of_error {m : Mixer} {t i : Nat}
    (h : binarySearchAux (m.data.map Prod.fst) t 0 m.data.length = .error i) :
    m.lerp t = if i = 0 ∨ i = m.data.length then none
      else some (mixRecord (m.data.getD (i - 1) (0, default))
        (m.data.getD i (0, default)) t) := by
  unfold Mixer.lerp
  rw [h]

/-- Search-hit facts restated on the entry list. -/
theorem lerp_search_ok {m : Mixer} {t i : Nat}
    (h : binarySearchAux (m.data.map Prod.fst) t 0 m.data.length = .ok i) :
    i < m.data.length ∧ (m.data.getD i (0, default)).1 = t := by
  have h2 := binarySearchAux_ok (m.data.map Prod.fst) t 0 m.data.length (by simp) i h
  have hi : i < m.data.length := h2.2.1
  exact ⟨hi, by rw [← keys_getD hi]; exact h2.2.2⟩

/-- Search-miss facts restated on the entry list: `i` is the insertion
point of `t`. -/
theorem lerp_search_error {m : Mixer} (hs : sortedByTime m.data) {t i : Nat}
    (h : binarySearchAux (m.data.map Prod.fst) t 0 m.data.length = .error i) :
    i ≤ m.data.length ∧
    (∀ j, j < i → (m.data.getD j (0, default)).1 < t) ∧
    (∀ j, i ≤ j → j < m.data.length → t < (m.data.getD j (0, default)).1) := by
  have hmono := keys_getD_mono (sorted_keys hs)
  have hmono2 : ∀ a b : Nat, a ≤ b → b < (m.data.map Prod.fst).length →
      (m.data.map Prod.fst).getD a 0 ≤ (m.data.map Prod.fst).getD b 0 := hmono
  have h2 := binarySearchAux_error (m.data.map Prod.fst) t
    (by simpa using hmono2) 0 m.data.length (by omega) (by simp)
    (fun j hj => absurd hj (by omega)) (fun j hj hjl => absurd hjl (by simp; omega)) i h
  refine ⟨by simpa using h2.1, ?_, ?_⟩
  · intro j hj
    have hjl : j < m.data.length := by
      have := h2.1
      simp only [List.length_map] at this
      omega
    rw [← keys_getD hjl]
    exact h2.2.1 j hj
  · intro j hij hjl
    rw [← keys_getD hjl]
    exact h2.2.2 j hij (by simpa using hjl)

/-- A convex combination with weight in `[0, 1]` lies between its
endpoints. -/
theorem convex_between (f pa pb : ℚ) (h0 : 0 ≤ f) (h1 : f ≤ 1) :
    min pa pb ≤ (1 - f) * pa + f * pb ∧ (1 - f) * pa + f * pb ≤ max pa pb := by
  rcases le_total pa pb with hc | hc
  · rw [min_eq_left hc, max_eq_right hc]
    constructor <;> nlinarith
  · rw [min_eq_right hc, max_eq_left hc]
    constructor <;> nlinarith

/-- The interpolation fraction of a strictly bracketed query lies in
`[0, 1]`. -/
theorem lerpFrac_mem_unit {a b t : Nat} (ha : a < t) (hb : t < b) :
    0 ≤ lerpFrac a b t ∧ lerpFrac a b t ≤ 1 := by
  unfold lerpFrac
  have h1 : (a : ℚ) < t := by exact_mod_cast ha
  have h2 : (t : ℚ) < b := by exact_mod_cast hb
  constructor
  · exact div_nonneg (by linarith) (by linarith)
  · rw [div_le_one (by linarith)]
    linarith

/-- A strictly bracketed query reaches the interpolation branch between
its two neighbouring entries. -/
theorem lerp_bracket (m : Mixer) (hs : sortedByTime m.data) (i t : Nat)
    (hi1 : i + 1 < m.data.length)
    (ha : (m.data.getD i (0, default)).1 < t)
    (hb : t < (m.data.getD (i + 1) (0, default)).1) :
    m.lerp t = some (mixRecord (m.data.getD i (0, default))
      (m.data.getD (i + 1) (0, default)) t) := by
  have hmono := keys_getD_mono (sorted_keys hs)
  cases hbs : binarySearchAux (m.data.map Prod.fst) t 0 m.data.length with
  | ok j =>
      obtain ⟨hj, hkey⟩ := lerp_search_ok hbs
      exfalso
      rcases Nat.lt_or_ge j (i + 1) with hc | hc
      · have := hmono j i (by omega) (by simpa using (by omega : i < m.data.length))
        rw [keys_getD (by omega), keys_getD (by omega)] at this
        omega
      · have := hmono (i + 1) j hc (by simpa using hj)
        rw [keys_getD hi1, keys_getD hj] at this
        omega
  | error e =>
      obtain ⟨hel, hlt, hgt⟩ := lerp_search_error hs hbs
      have he : e = i + 1 := by
        rcases Nat.lt_or_ge e (i + 1) with hc | hc
        · have := hgt i (by omega) (by omega)
          omega
        · rcases Nat.eq_or_lt_of_le hc with heq | hc2
          · omega
          · have := hlt (i + 1) (by omega)
            omega
      subst he
      rw [lerp_eq_of_error hbs, if_neg (by omega)]
      simp

/-- An in-bounds `getD` entry is a member of the series. -/
theorem getD_mem {l : List (Nat × Forecast)} {j : Nat} (hj : j < l.length) :
    l.getD j (0, default) ∈ l := by
  rw [List.getD_eq_getElem _ _ hj]
  exact List.getElem_mem hj

/-- Claim C5: for every non-empty sorted day series, `resample(t)` returns
nothing if and only if `t` is strictly before the first or strictly after
the last observed time; a `t` equal to the first or last observed time is
handled by the exact-match arm and returns a record — the resampler never
extrapolates. -/
theorem lerp_none_iff_out_of_range (m : Mixer) (hs : sortedByTime m.data)
    (hne : m.data ≠ []) (t : Nat) :
    (m.lerp t = none ↔
      (t < (m.data.getD 0 (0, default)).1 ∨
        (m.data.getD (m.data.length - 1) (0, default)).1 < t))
    ∧ ((t = (m.data.getD 0 (0, default)).1 ∨
        t = (m.data.getD (m.data.length - 1) (0, default)).1) →
        ∃ f, m.lerp t = some f) := by
  have hlen : 0 < m.data.length := List.length_pos.mpr hne
  have hmono := keys_getD_mono (sorted_keys hs)
  cases hbs : binarySearchAux (m.data.map Prod.fst) t 0 m.data.length with
  | ok i =>
      obtain ⟨hi, hkey⟩ := lerp_search_ok hbs
      have hfirst : (m.data.getD 0 (0, default)).1 ≤ t := by
        have := hmono 0 i (by omega) (by simpa using hi)
        rw [keys_getD hlen, keys_getD hi] at this
        omega
      have hlast : t ≤ (m.data.getD (m.data.length - 1) (0, default)).1 := by
        have := hmono i (m.data.length - 1) (by omega) (by simp; omega)
        rw [keys_getD hi, keys_getD (by omega)] at this
        omega
      rw [lerp_eq_of_ok hbs]
      exact ⟨⟨fun hc => Option.noConfusion hc, fun hc => by omega⟩,
        fun _ => ⟨_, rfl⟩⟩
  | error e =>
      obtain ⟨hel, hltk, hgtk⟩ := lerp_search_error hs hbs
      rw [lerp_eq_of_error hbs]
      by_cases hbound : e = 0 ∨ e = m.data.length
      · rw [if_pos hbound]
        constructor
        · constructor
          · intro _
            rcases hbound with rfl | rfl
            · exact Or.inl (hgtk 0 (by omega) hlen)
            · exact Or.inr (hltk (m.data.length - 1) (by omega))
          · intro _
            rfl
        · intro hc
          exfalso
          rcases hbound with rfl | rfl
          · rcases hc with hc | hc
            · have := hgtk 0 (by omega) hlen
              omega
            · have := hgtk (m.data.length - 1) (by omega) (by omega)
              omega
          · rcases hc with hc | hc
            · have := hltk 0 (by omega)
              omega
            · have := hltk (m.data.length - 1) (by omega)
              omega
      · rw [if_neg hbound]
        push_neg at hbound
        have h1 : (m.data.getD 0 (0, default)).1 < t := hltk 0 (by omega)
        have h2 : t < (m.data.getD (m.data.length - 1) (0, default)).1 :=
          hgtk (m.data.length - 1) (by omega) (by omega)
        exact ⟨⟨fun hc => Option.noConfusion hc, fun hc => by omega⟩,
          fun _ => ⟨_, rfl⟩⟩

/-- Exact-match behaviour on an already sorted series. -/
theorem lerp_exact_match_sorted (m : Mixer) (hs : sortedByTime m.data) (t : Nat)
    (hmem : ∃ p ∈ m.data, p.1 = t) :
    ∃ f, m.lerp t = some f ∧ (t, f) ∈ m.data := by
  cases hbs : binarySearchAux (m.data.map Prod.fst) t 0 m.data.length with
  | ok i =>
      obtain ⟨hi, hkey⟩ := lerp_search_ok hbs
      refine ⟨(m.data.getD i (0, default)).2, lerp_eq_of_ok hbs, ?_⟩
      rw [← hkey]
      exact getD_mem hi
  | error e =>
      exfalso
      obtain ⟨hel, hltk, hgtk⟩ := lerp_search_error hs hbs
      obtain ⟨p, hp, hpt⟩ := hmem
      obtain ⟨j, hj, hpj⟩ := List.mem_iff_getElem.mp hp
      have hkey : (m.data.getD j (0, default)).1 = t := by
        rw [List.getD_eq_getElem _ _ hj, hpj, hpt]
      rcases Nat.lt_or_ge j e with hc | hc
      · have := hltk j hc
        omega
      · have := hgtk j hc hj
        omega

/-- Claim C7: for every sorted day series and every strictly-in-range
query time, the record `resample` returns has a `precipitation_chance`
lying between the two bracketing (adjacent) records'
`precipitation_chance` values, inclusive.  (A query hitting an observed
time exactly returns that stored record unmodified — the exact-match arm,
claim C6 — so its value is trivially its own bracket.) -/
theorem lerp_precipitation_between (m : Mixer) (hs : sortedByTime m.data)
    (i t : Nat) (hi1 : i + 1 < m.data.length)
    (ha : (m.data.getD i (0, default)).1 < t)
    (hb : t < (m.data.getD (i + 1) (0, default)).1) :
    ∃ r, m.lerp t = some r ∧
      min (m.data.getD i (0, default)).2.precipitation
          (m.data.getD (i + 1) (0, default)).2.precipitation ≤ r.precipitation ∧
      r.precipitation ≤
        max (m.data.getD i (0, default)).2.precipitation
          (m.data.getD (i + 1) (0, default)).2.precipitation := by
  have hfrac := lerpFrac_mem_unit ha hb
  have hcv := convex_between
    (lerpFrac (m.data.getD i (0, default)).1 (m.data.getD (i + 1) (0, default)).1 t)
    (m.data.getD i (0, default)).2.precipitation
    (m.data.getD (i + 1) (0, default)).2.precipitation hfrac.1 hfrac.2
  exact ⟨_, lerp_bracket m hs i t hi1 ha hb, hcv.1, hcv.2⟩

/-- Claim C3: for every sorted day series and strictly-in-range query time
with bracketing records `a` and `b`, the resampled record's `temperature`
equals `(1-frac)*a.temperature + frac*b.precipitation_chance` — the
temperature is interpolated against the other record's precipitation
chance, not against `b.temperature`. -/
theorem lerp_temperature_pairing (m : Mixer) (hs : sortedByTime m.data) (i t : Nat)
    (hi1 : i + 1 < m.data.length)
    (ha : (m.data.getD i (0, default)).1 < t)
    (hb : t < (m.data.getD (i + 1) (0, default)).1) :
    ∃ r, m.lerp t = some r ∧
      r.temperature =
        (1 - lerpFrac (m.data.getD i (0, default)).1 (m.data.getD (i + 1) (0, default)).1 t)
            * (m.data.getD i (0, default)).2.temperature
          + lerpFrac (m.data.getD i (0, default)).1 (m.data.getD (i + 1) (0, default)).1 t
            * (m.data.getD (i + 1) (0, default)).2.precipitation :=
  ⟨_, lerp_bracket m hs i t hi1 ha hb, rfl⟩

theorem lerp_temperature_pairing_witness :
    ∃ r, (Mixer.mk [(480, recA), (720, recB)]).lerp 600 = some r ∧
      r.temperature = (1 - lerpFrac 480 720 600) * recA.temperature
        + lerpFrac 480 720 600 * recB.precipitation :=
  lerp_temperature_pairing (Mixer.mk [(480, recA), (720, recB)]) (by decide) 0 600
    (by decide) (by decide) (by decide)

/-- Claim C8: for every sorted day series and strictly-in-range query time
with bracketing records `a` and `b`, the resampled `uv_index` equals
`max(a.uv_index, b.uv_index)`; in particular it is never lower than both
bracketing records' values. -/
theorem lerp_uv_conservative (m : Mixer) (hs : sortedByTime m.data) (i t : Nat)
    (hi1 : i + 1 < m.data.length)
    (ha : (m.data.getD i (0, default)).1 < t)
    (hb : t < (m.data.getD (i + 1) (0, default)).1) :
    ∃ r, m.lerp t = some r ∧
      r.uv_index = max (m.data.getD i (0, default)).2.uv_index
          (m.data.getD (i + 1) (0, default)).2.uv_index ∧
      ((m.data.getD i (0, default)).2.uv_index ≤ r.uv_index ∨
        (m.data.getD (i + 1) (0, default)).2.uv_index ≤ r.uv_index) :=
  ⟨_, lerp_bracket m hs i t hi1 ha hb, rfl, Or.inl (le_max_left _ _)⟩

theorem lerp_uv_conservative_witness :
    ∃ r, (Mixer.mk [(480, recA), (720, recB)]).lerp 600 = some r ∧
      r.uv_index = max recA.uv_index recB.uv_index ∧
      (recA.uv_index ≤ r.uv_index ∨ recB.uv_index ≤ r.uv_index) :=
  lerp_uv_conservative (Mixer.mk [(480, recA), (720, recB)]) (by decide) 0 600
    (by decide) (by decide) (by decide)

theorem lerp_none_iff_out_of_range_witness :
    ((Mixer.mk [(480, recA), (720, recB)]).lerp 400 = none ↔ (400 < 480 ∨ 720 < 400))
    ∧ ((400 = 480 ∨ 400 = 720) →
        ∃ f, (Mixer.mk [(480, recA), (720, recB)]).lerp 400 = some f) :=
  lerp_none_iff_out_of_range (Mixer.mk [(480, recA), (720, recB)]) (by decide) (by decide) 400

/-- Claim C6: for every day series and every query time that exactly
equals an observed time, `resample` returns one of the stored records for
that time unmodified, with no interpolation applied to any field. -/
theorem lerp_exact_match (l : List (Nat × Forecast)) (t : Nat)
    (hmem : ∃ p ∈ l, p.1 = t) :
    ∃ f, (Mixer.new l).lerp t = some f ∧ (t, f) ∈ l := by
  obtain ⟨p, hp, hpt⟩ := hmem
  obtain ⟨f, hf, hmem2⟩ := lerp_exact_match_sorted (Mixer.new l) (mixer_new_sorted l) t
    ⟨p, List.mem_mergeSort.mpr hp, hpt⟩
  exact ⟨f, hf, List.mem_mergeSort.mp hmem2⟩

theorem lerp_exact_match_witness :
    ∃ f, (Mixer.new [(720, recB), (480, recA)]).lerp 480 = some f ∧
      (480, f) ∈ [(720, recB), (480, recA)] :=
  lerp_exact_match [(720, recB), (480, recA)] 480 ⟨(480, recA), by decide, rfl⟩

theorem lerp_precipitation_between_witness :
    ∃ r, (Mixer.mk [(480, recA), (720, recB)]).lerp 600 = some r ∧
      min recA.precipitation recB.precipitation ≤ r.precipitation ∧
      r.precipitation ≤ max recA.precipitation recB.precipitation :=
  lerp_precipitation_between (Mixer.mk [(480, recA), (720, recB)]) (by decide) 0 600
    (by decide) (by decide) (by decide)

/-- Appending the `%` marker always survives stripping. -/
theorem stripPercentSuffix_append (xs : List Char) :
    stripPercentSuffix (xs ++ ['%']) = some xs := by
  simp [stripPercentSuffix, List.reverse_append]

/-- Trimming a `%`-terminated text only trims on the left. -/
theorem trimChars_append_percent (cs : List Char) :
    trimChars (cs ++ ['%']) = cs.dropWhile Char.isWhitespace ++ ['%'] := by
  have hnws : Char.isWhitespace '%' = false := by decide
  have h1 : List.dropWhile Char.isWhitespace (cs ++ ['%']) =
      List.dropWhile Char.isWhitespace cs ++ ['%'] := by
    rw [List.dropWhile_append]
    by_cases he : (List.dropWhile Char.isWhitespace cs).isEmpty
    · rw [if_pos he]
      rw [List.isEmpty_iff.mp he]
      simp [List.dropWhile, hnws]
    · rw [if_neg he]
  unfold trimChars
  rw [h1, List.reverse_append]
  simp [List.dropWhile, hnws]

/-- The percent text of a `%`-terminated cell is its left-trimmed body. -/
theorem percentText_append (cs : List Char) :
    percentText (cs ++ ['%']) = cs.dropWhile Char.isWhitespace := by
  unfold percentText
  rw [trimChars_append_percent, stripPercentSuffix_append]

/-- Stripping returns nothing exactly when the text does not end in `%`. -/
theorem stripPercentSuffix_eq_none_iff (cs : List Char) :
    stripPercentSuffix cs = none ↔ cs.getLast? ≠ some '%' := by
  rw [← List.head?_reverse]
  unfold stripPercentSuffix
  cases hr : cs.reverse with
  | nil => simp
  | cons c rest =>
      by_cases hc : c = '%'
      · subst hc
        simp
      · simp [hc]

/-- Counterexample to claim C4: for the humidity percent cell the
below-threshold marker `&lt;5` is not special-cased — `&lt;5%` is a
numeric parse failure, not `0.0`. -/
theorem humidity_lt5_parse_failure : humidOfCell ("&lt;5%".data) = none := by decide

/-- Claim C4 (amended): both percent cells strip a trailing `%` before
parsing, but only the precipitation cell maps the `&lt;5` marker to `0.0`;
for humidity the marker fails to parse as a number. -/
theorem percent_fields_amended :
    precipOfCell ("&lt;5%".data) = some 0 ∧
    humidOfCell ("&lt;5%".data) = none ∧
    (∀ cs : List Char, precipOfCell (cs ++ ['%']) =
      (if cs.dropWhile Char.isWhitespace = ltFiveMarker then some 0
        else parseF32 (cs.dropWhile Char.isWhitespace))) ∧
    (∀ cs : List Char, humidOfCell (cs ++ ['%']) =
      parseF32 (cs.dropWhile Char.isWhitespace)) := by
  refine ⟨by decide, by decide, ?_, ?_⟩
  · intro cs
    simp only [precipOfCell, percentText_append]
  · intro cs
    simp only [humidOfCell, percentText_append]

/-- The replacement text `"0.0"` parses to zero. -/
theorem parseF32_zero_text : parseF32 ['0', '.', '0'] = some 0 := by
  have h : parseF32 ['0', '.', '0'] = some (digitsQ ['0'] + digitsQ ['0'] / (10 : ℚ) ^ 1) := rfl
  have h0 : digitsQ ['0'] = 0 := by
    unfold digitsQ
    rw [show digitsVal ['0'] = 0 from rfl]
    norm_num
  rw [h, h0]
  norm_num

/-- Claim C10: a precipitation or humidity cell whose trimmed inner text
does not end in `%` has its whole text replaced by `"0.0"`, so the field is
set to `0.0` — a missing `%` can never cause a parse failure, and the
cell's actual digits are ignored. -/
theorem percent_missing_suffix_defaults (inner : List Char)
    (h : (trimChars inner).getLast? ≠ some '%') :
    precipOfCell inner = some 0 ∧ humidOfCell inner = some 0 := by
  have hs : stripPercentSuffix (trimChars inner) = none :=
    (stripPercentSuffix_eq_none_iff _).mpr h
  have hp : percentText inner = ['0', '.', '0'] := by
    unfold percentText
    rw [hs]
  constructor
  · simp only [precipOfCell, hp]
    rw [if_neg (by decide)]
    exact parseF32_zero_text
  · simp only [humidOfCell, hp]
    exact parseF32_zero_text

theorem percent_missing_suffix_defaults_witness :
    precipOfCell ['1', '7'] = some 0 ∧ humidOfCell ['1', '7'] = some 0 :=
  percent_missing_suffix_defaults ['1', '7'] (by decide)

/-- Claim C2 (divergence evidence): the descriptor `20:2:3` is inside the
format regex's bounds and is accepted by the code's check
`count*(step-1) + start >= 24` (`3*1 + 20 = 23 < 24`), yet its enumerated
query times are `20:00, 22:00, 24:00` — the claimed same-day condition
`start + step*(count-1) < 24` fails, and hour `24` overflows the day
(`NaiveTime::from_hms(24, 0, 0)` panics downstream). -/
theorem timeRange_validation_divergence :
    timeRangeOfFields 20 2 3 = some ⟨20, 2, 3⟩ ∧
    queryTimes ⟨20, 2, 3⟩ = [20, 22, 24] ∧ ¬(20 + 2 * (3 - 1) < 24) := by decide

/-- Counterexample to claim C1: a day with one time-axis entry but two
precipitation cells makes extraction fail with the out-of-bounds index
panic — a field list longer than `N` does not leave extraction successful. -/
theorem overlong_field_list_panics :
    longPrecipDay.timeNodes.length = 1 ∧ longPrecipDay.precipNodes.length = 2 ∧
    extractDay false longPrecipDay = Except.error ExtractErr.indexPanic := by decide

/-- Claim C1 (amended): a per-field population pass whose node list is
shorter than the record list succeeds and leaves every record at an index
past the list's length with its default field value; but a node list
longer than the record list makes the pass fail with the out-of-bounds
index panic when it writes entry `N`. -/
theorem populate_length_mismatch {α β : Type} (getVal : α → Except ExtractErr β)
    (setF : Forecast → β → Forecast) (fs : List Forecast) (ns : List α)
    (hok : ∀ n ∈ ns, ∃ v, getVal n = Except.ok v) :
    (ns.length ≤ fs.length →
      ∃ out, runPass getVal setF fs ns 0 = Except.ok out ∧ out.length = fs.length ∧
        ∀ j, ns.length ≤ j → out.getD j default = fs.getD j default)
    ∧ (fs.length < ns.length →
        runPass getVal setF fs ns 0 = Except.error ExtractErr.indexPanic) := by
  constructor
  · intro hle
    obtain ⟨out, hout⟩ := runPass_ok_of_short getVal setF ns fs 0 hok (by omega)
    refine ⟨out, hout, runPass_ok_length getVal setF ns fs 0 out hout, ?_⟩
    intro j hj
    exact runPass_ok_getD_outside getVal setF ns fs 0 out hout j (Or.inr (by omega)) default
  · intro hlt
    exact runPass_panic_of_long getVal setF ns fs 0 hok (by omega) (by omega)

theorem populate_length_mismatch_witness :
    (([(1 : ℚ)].length ≤ (List.replicate 2 (default : Forecast)).length →
      ∃ out, runPass Except.ok (fun f v => { f with humidity := v })
          (List.replicate 2 (default : Forecast)) [(1 : ℚ)] 0 = Except.ok out ∧
        out.length = (List.replicate 2 (default : Forecast)).length ∧
        ∀ j, [(1 : ℚ)].length ≤ j → out.getD j default =
          (List.replicate 2 (default : Forecast)).getD j default)
    ∧ ((List.replicate 2 (default : Forecast)).length < [(1 : ℚ)].length →
        runPass Except.ok (fun f v => { f with humidity := v })
          (List.replicate 2 (default : Forecast)) [(1 : ℚ)] 0 =
          Except.error ExtractErr.indexPanic)) :=
  populate_length_mismatch Except.ok (fun f v => { f with humidity := v })
    (List.replicate 2 default) [1] (fun n _ => ⟨n, rfl⟩)

/-- A day that extracts successfully has none of the aborting failure
modes. -/
theorem extractDay_ok_not_dayFailure {freedom : Bool} {d : RawDay}
    {v : Date × List (Nat × Forecast)}
    (h : extractDay freedom d = Except.ok v) : ¬ dayFailure d := by
  unfold extractDay at h
  obtain ⟨date, hdate, h⟩ := exceptBindOk h
  obtain ⟨times, htimes, h⟩ := exceptBindOk h
  obtain ⟨fs, hpasses, _⟩ := exceptBindOk h
  unfold dayDate at hdate
  obtain ⟨s0, hs0, hdate2⟩ := exceptBindOk hdate
  have hid : d.id = some s0 := require_ok hs0
  have hpd : parseDate s0 ≠ none := by
    intro hn
    rw [hn] at hdate2
    exact Except.noConfusion hdate2
  unfold dayTimes at htimes
  have htv := mapM_ok_forall timeVal d.timeNodes times htimes
  unfold dayPasses at hpasses
  obtain ⟨fs1, h1, hpasses⟩ := exceptBindOk hpasses
  obtain ⟨fs2, h2, hpasses⟩ := exceptBindOk hpasses
  obtain ⟨fs3, h3, hpasses⟩ := exceptBindOk hpasses
  obtain ⟨fs4, h4, hpasses⟩ := exceptBindOk hpasses
  obtain ⟨fs5, h5, hpasses⟩ := exceptBindOk hpasses
  obtain ⟨fs6, h6, hpasses⟩ := exceptBindOk hpasses
  obtain ⟨fs7, h7, hpasses⟩ := exceptBindOk hpasses
  obtain ⟨fs8, h8, hpasses⟩ := exceptBindOk hpasses
  obtain ⟨fs9, h9, h10⟩ := exceptBindOk hpasses
  have hPrec := runPass_ok_getVal precipVal (fun f v => { f with precipitation := v })
    d.precipNodes fs1 0 fs2 h2
  have hTemp := runPass_ok_getVal (fun o => (numVal o).map (convert_temp freedom))
    (fun f v => { f with temperature := v }) d.tempNodes fs2 0 fs3 h3
  have hFeels := runPass_ok_getVal (fun o => (numVal o).map (convert_temp freedom))
    (fun f v => { f with feels_like := v }) d.feelsNodes fs3 0 fs4 h4
  have hSpeed := runPass_ok_getVal (fun o => (numVal o).map (convert_speed freedom))
    (fun f v => { f with wind_speed := v }) d.windSpeedNodes fs4 0 fs5 h5
  have hGust := runPass_ok_getVal (fun o => (numVal o).map (convert_speed freedom))
    (fun f v => { f with wind_gust := v }) d.windGustNodes fs6 0 fs7 h7
  have hVisib := runPass_ok_getVal numVal (fun f v => { f with visibility := v })
    d.visibNodes fs7 0 fs8 h8
  have hHumid := runPass_ok_getVal humidVal (fun f v => { f with humidity := v })
    d.humidNodes fs8 0 fs9 h9
  have hUv := runPass_ok_getVal numVal (fun f v => { f with uv_index := v })
    d.uvNodes fs9 0 fs h10
  intro hf
  rcases hf with ⟨s, hds, hpn⟩ | hnone | ⟨c, hc, hcn⟩ | ⟨o, ho, s, hos, hsn⟩ |
    ⟨o, ho, s, hos, hsn⟩ | ⟨o, ho, s, hos, hsn⟩ | ⟨o, ho, s, hos, hsn⟩ |
    ⟨o, ho, s, hos, hsn⟩ | ⟨c, hc, hcn⟩ | ⟨o, ho, s, hos, hsn⟩
  · rw [hid] at hds
    injection hds with he
    exact hpd (by rw [he]; exact hpn)
  · obtain ⟨b, hb⟩ := htv none hnone
    exact Except.noConfusion hb
  · obtain ⟨q, hq⟩ := hPrec c hc
    unfold precipVal at hq
    rw [hcn] at hq
    exact Except.noConfusion hq
  · obtain ⟨q, hq⟩ := hTemp o ho
    obtain ⟨q0, hq0, _⟩ := exceptMapOk hq
    obtain ⟨s2, hs2, hps2⟩ := numVal_ok hq0
    rw [hos] at hs2
    injection hs2 with he
    rw [← he] at hps2
    rw [hsn] at hps2
    exact Option.noConfusion hps2
  · obtain ⟨q, hq⟩ := hFeels o ho
    obtain ⟨q0, hq0, _⟩ := exceptMapOk hq
    obtain ⟨s2, hs2, hps2⟩ := numVal_ok hq0
    rw [hos] at hs2
    injection hs2 with he
    rw [← he] at hps2
    rw [hsn] at hps2
    exact Option.noConfusion hps2
  · obtain ⟨q, hq⟩ := hSpeed o ho
    obtain ⟨q0, hq0, _⟩ := exceptMapOk hq
    obtain ⟨s2, hs2, hps2⟩ := numVal_ok hq0
    rw [hos] at hs2
    injection hs2 with he
    rw [← he] at hps2
    rw [hsn] at hps2
    exact Option.noConfusion hps2
  · obtain ⟨q, hq⟩ := hGust o ho
    obtain ⟨q0, hq0, _⟩ := exceptMapOk hq
    obtain ⟨s2, hs2, hps2⟩ := numVal_ok hq0
    rw [hos] at hs2
    injection hs2 with he
    rw [← he] at hps2
    rw [hsn] at hps2
    exact Option.noConfusion hps2
  · obtain ⟨q, hq⟩ := hVisib o ho
    obtain ⟨s2, hs2, hps2⟩ := numVal_ok hq
    rw [hos] at hs2
    injection hs2 with he
    rw [← he] at hps2
    rw [hsn] at hps2
    exact Option.noConfusion hps2
  · obtain ⟨q, hq⟩ := hHumid c hc
    unfold humidVal at hq
    rw [hcn] at hq
    exact Except.noConfusion hq
  · obtain ⟨q, hq⟩ := hUv o ho
    obtain ⟨s2, hs2, hps2⟩ := numVal_ok hq
    rw [hos] at hs2
    injection hs2 with he
    rw [← he] at hps2
    rw [hsn] at hps2
    exact Option.noConfusion hps2

/-- Claim C9: extraction is all-or-nothing per document — a malformed day
date attribute, a missing per-step time attribute, or a numeric field text
that fails to parse on any day makes the whole fetch return an error, and
no sequence of days is produced. -/
theorem extract_all_or_nothing (freedom : Bool) (days : List RawDay)
    (h : ∃ d ∈ days, dayFailure d) :
    ∃ e, get_forecast freedom days = Except.error e := by
  cases hr : get_forecast freedom days with
  | error e => exact ⟨e, rfl⟩
  | ok out =>
      obtain ⟨d, hd, hf⟩ := h
      unfold get_forecast at hr
      obtain ⟨v, hv⟩ := mapM_ok_forall (extractDay freedom) days out hr d hd
      exact absurd hf (extractDay_ok_not_dayFailure hv)

theorem extract_all_or_nothing_witness :
    ∃ e, get_forecast false [badDateDay] = Except.error e :=
  extract_all_or_nothing false [badDateDay]
    ⟨badDateDay, List.mem_singleton.mpr rfl, Or.inl ⟨"bogus".data, rfl, by decide⟩⟩
